/-
Verification of the Forecast Verification Engine of `api-compare`
against its natural-language specification.

The definitions below are a shallow embedding of the Python sources
`src/compare_apis/run_compare.py` (the active pipeline, invoked by
`run_fetch_compare.py`), `src/compare_apis/analyze_summaries.py`, and,
where noted, the legacy variant `src/stare/run_compare.py`.

Modelling conventions:
* All floating-point quantities (values, coordinates, percentages) are
  embedded as `ℚ`; timestamps are embedded as `ℚ` (seconds since an
  arbitrary epoch, already floored to the hour by upstream loaders).
* pandas `NaN` cells are embedded as `Option.none`.
* A pandas long-format dataframe is embedded as a `List Rec`.
* `RMSE = sqrt(mean(error^2))` is carried as its square (`msq`), since
  the square root of a rational is not rational; `sqrt` is strictly
  monotone so NaN-ness, ordering and zero-ness are preserved.
-/
import Mathlib

set_option linter.unusedVariables false

namespace ApiCompare

/-- One long-format observation record: a row of a provider or reference
dataframe after `load_long_csv` (column `provider` is added right after
loading; the `__derived__` marker column of `ensure_target_vars` is
embedded as the Boolean field `derived`, `false` ≙ NaN marker). -/
structure Rec where
  time : ℚ
  latitude : ℚ
  longitude : ℚ
  var : String
  value : ℚ
  provider : String
  derived : Bool
deriving DecidableEq, Repr

/-- Python's `%` operator on floats for a positive modulus `m`:
`x - m * floor (x / m)`, the representative in `[0, m)`. -/
def pymod (x m : ℚ) : ℚ := x - m * ⌊x / m⌋

/-- `circular_error_deg` of `src/stare/run_compare.py` (lines 122-124),
identical to the `error_angle` expression of
`src/compare_apis/run_compare.py` line 320:
`((pred - ref + 180.0) % 360.0) - 180.0`. -/
def circular_error_deg (pred ref : ℚ) : ℚ :=
  pymod (pred - ref + 180) 360 - 180

/-- The `error` column of the summary metric table of
`src/compare_apis/run_compare.py` line 245: `pred_value - era5_value`,
applied uniformly to every joined row (directional or not). Bias, MAE
and RMSE of `era5_comparison_summary.csv` are aggregates of this column. -/
def error_col (row : Rec × Rec) : ℚ := row.1.value - row.2.value

/-- A joined `wind_direction_100m` comparison row with the given
predicted and reference values (provider and coordinates arbitrary). -/
def wdirRow (pred ref : ℚ) : Rec × Rec :=
  (⟨0, 52, 21, "wind_direction_100m", pred, "openmeteo", false⟩,
   ⟨0, 52, 21, "wind_direction_100m", ref, "era5", false⟩)

/-! ## Loader (`load_long_csv`, compare_apis lines 42-53)

`pd.read_csv` yields a table of string cells; `pd.to_datetime(...,
errors="coerce")` and `pd.to_numeric(..., errors="coerce")` are external
library parsers, embedded as abstract parameters `pt`/`pn` returning
`none` for `NaT`/`NaN`; `dropna` then discards every row in which one of
the five required fields is `none` (the `variable` cell itself is `none`
when the CSV cell is empty). -/

/-- One raw CSV row of a long-format feed (the five required columns;
`var` is `none` when the `variable` cell is empty, i.e. NaN). -/
structure RawRow where
  time : String
  latitude : String
  longitude : String
  var : Option String
  value : String
deriving DecidableEq, Repr

/-- The required columns checked by `load_long_csv` (line 44). -/
def REQUIRED_COLS : List String := ["time", "latitude", "longitude", "variable", "value"]

/-- Coercion + `dropna` for one row: the row survives iff all five
fields parse; the `provider` column is attached after loading and the
`__derived__` marker does not exist yet. -/
def parseRow (pt pn : String → Option ℚ) (r : RawRow) : Option Rec :=
  match pt r.time, pn r.latitude, pn r.longitude, r.var, pn r.value with
  | some t, some la, some lo, some v, some x => some ⟨t, la, lo, v, x, "", false⟩
  | _, _, _, _, _ => none

/-- `load_long_csv` (compare_apis lines 42-53): raise (`Except.error`)
iff a required column is missing from the header, otherwise coerce every
row and drop the unparseable ones. -/
def load_long_csv (pt pn : String → Option ℚ) (header : List String) (rows : List RawRow) :
    Except String (List Rec) :=
  if REQUIRED_COLS.all (fun c => decide (c ∈ header)) then
    .ok (rows.filterMap (parseRow pt pn))
  else
    .error "missing required column"

/-- `load_provider` (line 205-208): tag all loaded records with the
provider name taken from the file name. -/
def withProvider (p : String) (l : List Rec) : List Rec :=
  l.map fun r => { r with provider := p }

/-! ## Variable Deriver (`ensure_target_vars`, compare_apis lines 61-98) -/

/-- The merge keys of `ensure_target_vars`
(`["time","latitude","longitude","provider","variable"]`); both sides of
each merge share the same `variable`, so only the other four matter. -/
def sameKeyP (a b : Rec) : Bool :=
  a.time == b.time && a.latitude == b.latitude &&
  a.longitude == b.longitude && a.provider == b.provider

/-- The speed block of `ensure_target_vars` (compare_apis lines 72-84):
rebase every `wind_speed_10m` row to 100 m, multiplying the value by the
precomputed float `factor = (100.0/10.0) ** alpha` (line 76), keep only
rows whose (time, latitude, longitude, provider) key has no native
`wind_speed_100m` row, and mark them `__derived__`. -/
def speedAdd (df : List Rec) (factor : ℚ) : List Rec :=
  ((df.filter fun r => r.var == "wind_speed_10m").map fun r =>
      { r with var := "wind_speed_100m", value := r.value * factor, derived := true }).filter
    fun a => !(df.filter fun r => r.var == "wind_speed_100m").any fun h => sameKeyP h a

/-- The direction block of `ensure_target_vars` (compare_apis lines
87-96): same scheme with the value copied unchanged
(`dir100 = dir10`). -/
def dirAdd (df : List Rec) : List Rec :=
  ((df.filter fun r => r.var == "wind_direction_10m").map fun r =>
      { r with var := "wind_direction_100m", derived := true }).filter
    fun a => !(df.filter fun r => r.var == "wind_direction_100m").any fun h => sameKeyP h a

/-- `ensure_target_vars` (compare_apis lines 61-98): append the derived
speed rows (guarded by `"wind_speed_10m" in df["variable"].unique()`),
then the derived direction rows computed on the updated table. -/
def ensure_target_vars (df : List Rec) (factor : ℚ) : List Rec :=
  let df1 :=
    if df.any fun r => r.var == "wind_speed_10m" then df ++ speedAdd df factor else df
  if df1.any fun r => r.var == "wind_direction_10m" then df1 ++ dirAdd df1 else df1

/-! ## Aligner, counts, coverage (compare_apis lines 216-279) -/

/-- The four target variables kept by the pipeline (lines 31-36). -/
def TARGET_VARS : List String :=
  ["precipitation", "temperature_2m", "wind_speed_100m", "wind_direction_100m"]

/-- The join key of the provider/ERA5 merge (line 234):
`(time, latitude, longitude, variable)`. -/
def matchKey (r e : Rec) : Bool :=
  r.time == e.time && r.latitude == e.latitude &&
  r.longitude == e.longitude && r.var == e.var

/-- The inner merge of line 232-236: every provider row is paired with
every reference row carrying the same join key (pandas inner-join
semantics, including key multiplicity). -/
def innerJoin (prov era : List Rec) : List (Rec × Rec) :=
  prov.flatMap fun r => (era.filter fun e => matchKey r e).map fun e => (r, e)

/-- Membership of a record in the `(provider, variable)` group `(p, v)`. -/
def inGroup (p v : String) (r : Rec) : Bool := r.provider == p && r.var == v

/-- `n_provider` (lines 221-228): group size in the post-derivation,
post-filter provider table. -/
def n_provider (prov : List Rec) (p v : String) : ℕ :=
  (prov.filter (inGroup p v)).length

/-- `n_overlap` (line 256): number of joined rows of the group. -/
def n_overlap (merged : List (Rec × Rec)) (p v : String) : ℕ :=
  (merged.filter fun row => inGroup p v row.1).length

/-- numpy `rint`: round to the nearest integer, ties to the even
integer (`rint(0.5) = 0`, `rint(1.5) = 2`).  `x - ⌊x⌋` is the
fractional part. -/
def roundEven (x : ℚ) : ℤ :=
  if x - ⌊x⌋ < 1 / 2 then ⌊x⌋
  else if 1 / 2 < x - ⌊x⌋ then ⌊x⌋ + 1
  else if ⌊x⌋ % 2 = 0 then ⌊x⌋ else ⌊x⌋ + 1

/-- pandas `.round(2)` (numpy `around` with 2 decimals): scale by 100,
round half to even, unscale. -/
def round2 (x : ℚ) : ℚ := ((roundEven (100 * x) : ℤ) : ℚ) / 100

/-- `coverage_pct` (lines 270-273):
`(100.0 * n_overlap.fillna(0) / n_provider.replace(0, nan)).fillna(0).round(2)`. -/
def coverage_pct (prov : List Rec) (merged : List (Rec × Rec)) (p v : String) : ℚ :=
  if n_provider prov p v = 0 then 0
  else round2 (100 * (n_overlap merged p v : ℚ) / (n_provider prov p v : ℚ))

/-- `count_derived` (lines 100-109) restricted to one group: number of
rows whose `__derived__` marker is set. -/
def derived_n (prov : List Rec) (p v : String) : ℕ :=
  (prov.filter fun r => r.derived && inGroup p v r).length

/-- `derived_pct` (lines 277-279):
`(100.0 * derived_n / n_provider.replace(0, nan)).fillna(0).round(2)`. -/
def derived_pct (prov : List Rec) (p v : String) : ℚ :=
  if n_provider prov p v = 0 then 0
  else round2 (100 * (derived_n prov p v : ℚ) / (n_provider prov p v : ℚ))

/-! ## Metrics Calculator (compare_apis lines 238-265) -/

/-- pandas `mean` over a group column: NaN on an empty group. -/
def mean (l : List ℚ) : Option ℚ :=
  if l = [] then none else some (l.sum / l.length)

/-- The square of `rmse = sqrt(mean(square(errors)))` (line 259); NaN on
an empty group.  The square root itself is irrational in general; it is
strictly monotone, so NaN-ness and order are faithfully carried by the
square. -/
def msq (l : List ℚ) : Option ℚ :=
  if l = [] then none else some ((l.map fun e => e ^ 2).sum / l.length)

/-- `100.0 * np.mean(s > 0)` / `100.0 * np.mean(s < 0)` (lines 261-262). -/
def pct_if (p : ℚ → Bool) (l : List ℚ) : Option ℚ :=
  if l = [] then none else some (100 * ((l.filter p).length : ℚ) / l.length)

/-- `_corr` (lines 247-250): NaN when the group has fewer than 3 rows;
otherwise the Pearson correlation
`(n·Σxy − Σx·Σy) / sqrt((n·Σx² − (Σx)²) · (n·Σy² − (Σy)²))`, carried as
the triple (numerator, x-variance term, y-variance term) since the
square root is irrational. -/
def corrStats (pairs : List (ℚ × ℚ)) : Option (ℚ × ℚ × ℚ) :=
  if pairs.length < 3 then none
  else
    let n : ℚ := pairs.length
    let xs := pairs.map Prod.fst
    let ys := pairs.map Prod.snd
    some (n * (pairs.map fun q => q.1 * q.2).sum - xs.sum * ys.sum,
          n * (xs.map fun a => a ^ 2).sum - xs.sum ^ 2,
          n * (ys.map fun a => a ^ 2).sum - ys.sum ^ 2)

/-- The error column values of one `(provider, variable)` group. -/
def errsOf (merged : List (Rec × Rec)) (p v : String) : List ℚ :=
  (merged.filter fun row => inGroup p v row.1).map error_col

/-- One row of `era5_comparison_summary.csv`; `Option.none` embeds the
NaN cells (`n_overlap` is NaN for a group with no joined rows when the
overall merge is non-empty, by the `how="left"` merge of line 267). -/
structure MetricRow where
  provider : String
  var : String
  n_provider : ℕ
  n_overlap : Option ℕ
  bias_mean : Option ℚ
  mae : Option ℚ
  rmse_sq : Option ℚ
  corr : Option (ℚ × ℚ × ℚ)
  over_pct : Option ℚ
  under_pct : Option ℚ
  coverage : ℚ
  derivedN : ℕ
  derivedPct : ℚ
deriving DecidableEq, Repr

/-- The summary row of one group (compare_apis lines 238-279): when the
whole merge is empty (line 238), `n_overlap` is set to 0 and every
statistic to NaN (lines 240-243); otherwise the group statistics are
aggregated from the error column, a group absent from the merge getting
NaN everything by the left merge of line 267. -/
def metricRowFor (prov : List Rec) (merged : List (Rec × Rec)) (p v : String) : MetricRow :=
  if merged = [] then
    ⟨p, v, n_provider prov p v, some 0, none, none, none, none, none, none,
     coverage_pct prov merged p v, derived_n prov p v, derived_pct prov p v⟩
  else
    let es := errsOf merged p v
    if es = [] then
      ⟨p, v, n_provider prov p v, none, none, none, none, none, none, none,
       coverage_pct prov merged p v, derived_n prov p v, derived_pct prov p v⟩
    else
      ⟨p, v, n_provider prov p v, some es.length, mean es,
       mean (es.map fun e => |e|), msq es,
       corrStats ((merged.filter fun row => inGroup p v row.1).map
         fun row => (row.1.value, row.2.value)),
       pct_if (fun e => decide (0 < e)) es, pct_if (fun e => decide (e < 0)) es,
       coverage_pct prov merged p v, derived_n prov p v, derived_pct prov p v⟩

/-- The `(provider, variable)` groups of a provider table, in order of
first appearance. -/
def groupsOf (prov : List Rec) : List (String × String) :=
  (prov.map fun r => (r.provider, r.var)).dedup

/-- Derivation + target filtering applied to the provider table
(lines 213-216). -/
def run_post (prov : List Rec) (factor : ℚ) : List Rec :=
  (ensure_target_vars prov factor).filter fun r => TARGET_VARS.contains r.var

/-- The per-run summary (`era5_comparison_summary.csv`) of compare_apis
`run` restricted to its computational content: derive, filter both
tables to the target variables (lines 213-216, 231), inner-join
(lines 232-236), and emit one `MetricRow` per provider group
(lines 238-279). -/
def run_summary (prov era : List Rec) (factor : ℚ) : List MetricRow :=
  (groupsOf (run_post prov factor)).map fun g =>
    metricRowFor (run_post prov factor)
      (innerJoin (run_post prov factor) (era.filter fun r => TARGET_VARS.contains r.var))
      g.1 g.2

/-! ## Event Skill Calculator (compare_apis lines 369-386) -/

/-- `TP = np.sum(pred_ev & era_ev)` with `pred_ev = pred > thr`,
`era_ev = era5 > thr` (lines 375-377). -/
def TP (rows : List (ℚ × ℚ)) (thr : ℚ) : ℕ :=
  (rows.filter fun q => decide (thr < q.1) && decide (thr < q.2)).length

/-- `FP = np.sum(pred_ev & ~era_ev)` (line 378). -/
def FP (rows : List (ℚ × ℚ)) (thr : ℚ) : ℕ :=
  (rows.filter fun q => decide (thr < q.1) && !decide (thr < q.2)).length

/-- `FN = np.sum(~pred_ev & era_ev)` (line 379). -/
def FN (rows : List (ℚ × ℚ)) (thr : ℚ) : ℕ :=
  (rows.filter fun q => !decide (thr < q.1) && decide (thr < q.2)).length

/-- `POD = TP / (TP + FN) if (TP + FN) > 0 else nan` (line 383). -/
def POD (rows : List (ℚ × ℚ)) (thr : ℚ) : Option ℚ :=
  if 0 < TP rows thr + FN rows thr
  then some ((TP rows thr : ℚ) / ((TP rows thr : ℚ) + (FN rows thr : ℚ)))
  else none

/-- `FAR = FP / (TP + FP) if (TP + FP) > 0 else nan` (line 384). -/
def FAR (rows : List (ℚ × ℚ)) (thr : ℚ) : Option ℚ :=
  if 0 < TP rows thr + FP rows thr
  then some ((FP rows thr : ℚ) / ((TP rows thr : ℚ) + (FP rows thr : ℚ)))
  else none

/-- `CSI = TP / (TP + FP + FN) if (TP + FP + FN) > 0 else nan` (line 385). -/
def CSI (rows : List (ℚ × ℚ)) (thr : ℚ) : Option ℚ :=
  if 0 < TP rows thr + FP rows thr + FN rows thr
  then some ((TP rows thr : ℚ) / ((TP rows thr : ℚ) + (FP rows thr : ℚ) + (FN rows thr : ℚ)))
  else none

/-! ## Linear fit (`linfit`, compare_apis lines 325-335)

`np.linalg.lstsq(A, y, rcond=None)` on the design matrix
`A = [x, 1]` returns the unique least-squares solution when `A` has full
column rank, and the minimum-norm least-squares solution when `A` is
rank-deficient.  For this design matrix, full rank is equivalent to
`x` being non-constant, equivalently `n·Σx² − (Σx)² ≠ 0` (this quantity
is `n·Σ(x−x̄)² ≥ 0`).  When `x` is constant with value `c`, the
minimum-norm solution minimizes `s² + i²` subject to `s·c + i = ȳ`,
giving `(s, i) = (c·ȳ, ȳ) / (c² + 1)`. -/

/-- `linfit` (compare_apis lines 325-335): NaN-triple for fewer than 3
points; otherwise lstsq slope/intercept as described above, and
`r2 = 1 - ss_res/ss_tot if ss_tot > 0 else nan`. -/
def linfit (x y : List ℚ) : Option (ℚ × ℚ × Option ℚ) :=
  if x.length < 3 then none
  else
    let n : ℚ := x.length
    let sx := x.sum
    let sy := y.sum
    let sxx := (x.map fun a => a ^ 2).sum
    let sxy := (List.zipWith (fun a b => a * b) x y).sum
    let d := n * sxx - sx ^ 2
    let sl_itc : ℚ × ℚ :=
      if d = 0 then
        let c := x.headI
        let ybar := sy / n
        (c * ybar / (c ^ 2 + 1), ybar / (c ^ 2 + 1))
      else
        ((n * sxy - sx * sy) / d, (sy - ((n * sxy - sx * sy) / d) * sx) / n)
    let yhat := x.map fun a => sl_itc.1 * a + sl_itc.2
    let ss_res := (List.zipWith (fun b h => (b - h) ^ 2) y yhat).sum
    let ss_tot := (y.map fun b => (b - sy / n) ^ 2).sum
    let r2 : Option ℚ := if 0 < ss_tot then some (1 - ss_res / ss_tot) else none
    some (sl_itc.1, sl_itc.2, r2)

/-! ## Trend aggregation (`analyze_summaries.py` lines 110-117, 170-183) -/

/-- `np.allclose(x, x[0])` with numpy's default tolerances
`rtol = 1e-5`, `atol = 1e-8`: every element within
`atol + rtol·|x[0]|` of the first. -/
def allclose0 (x : List ℚ) : Bool :=
  x.all fun a => decide (|a - x.headI| ≤ 1 / 100000000 + 1 / 100000 * |x.headI|)

/-- `ols_slope` (analyze_summaries lines 110-117): NaN when fewer than 2
points or `np.allclose(x, x[0])`; otherwise the lstsq slope, which for a
non-constant `x` (guaranteed by the failed `allclose`) is the classic
full-rank OLS slope `(n·Σxy − Σx·Σy) / (n·Σx² − (Σx)²)`. -/
def ols_slope (y x : List ℚ) : Option ℚ :=
  if y.length < 2 ∨ allclose0 x = true then none
  else
    let n : ℚ := x.length
    let sx := x.sum
    let sy := y.sum
    let sxx := (x.map fun a => a ^ 2).sum
    let sxy := (List.zipWith (fun a b => a * b) x y).sum
    some ((n * sxy - sx * sy) / (n * sxx - sx ^ 2))

/-- `t_days` (analyze_summaries lines 171-173): elapsed time in days
since the earliest run timestamp `t0` of the whole history set
(timestamps in seconds). -/
def t_days (t0 : ℚ) (times : List ℚ) : List ℚ :=
  times.map fun t => (t - t0) / (24 * 3600)

/-- `slope_rmse` of `summarize_history` (analyze_summaries lines
175-180) for one `(provider, variable)` group: OLS slope of the group's
RMSE values against elapsed days (`slope_bias` is the same function
applied to the bias column). -/
def slope_rmse (t0 : ℚ) (rmses times : List ℚ) : Option ℚ :=
  ols_slope rmses (t_days t0 times)

/-! ## Concrete data for witnesses and counterexamples -/

/-- The spec §3 data-model invariant for the reference feed: pairwise
distinct (time, latitude, longitude, variable) join keys. -/
def keyDistinct (era : List Rec) : Prop :=
  era.Pairwise fun a b => matchKey a b = false
/-- A concrete provider record and a matching reference record. -/
def provRow : Rec := ⟨0, 52, 21, "temperature_2m", 11, "openmeteo", false⟩

def eraRow : Rec := ⟨0, 52, 21, "temperature_2m", 10, "era5", false⟩
/-- A reference record sharing no join key with `provRow` (different
hour). -/
def eraRowLater : Rec := ⟨3600, 52, 21, "temperature_2m", 10, "era5", false⟩
/-- Header and parsers used by the loader witnesses: `ptEx` accepts the
single timestamp string, `pnEx` the two numeral strings. -/
def headerEx : List String := ["time", "latitude", "longitude", "variable", "value", "extra"]

def ptEx : String → Option ℚ := fun s => if s = "2025-08-11T00:00:00Z" then some 0 else none

def pnEx : String → Option ℚ :=
  fun s => if s = "52.0" then some 52 else if s = "21.0" then some 21 else none

/-- A raw row that parses completely. -/
def goodRow : RawRow := ⟨"2025-08-11T00:00:00Z", "52.0", "21.0", some "temperature_2m", "21.0"⟩

/-- A raw row whose `value` cell fails numeric coercion. -/
def badRow : RawRow := ⟨"2025-08-11T00:00:00Z", "52.0", "21.0", some "temperature_2m", "oops"⟩

/-- Two records of one source sharing the same (time, latitude,
longitude, variable) key with different values. -/
def dupA : Rec := ⟨0, 52, 21, "temperature_2m", 10, "openmeteo", false⟩

def dupB : Rec := ⟨0, 52, 21, "temperature_2m", 20, "openmeteo", false⟩

/-- A `wind_speed_100m` group with two native records and one derived
record. -/
def wsA : Rec := ⟨0, 52, 21, "wind_speed_100m", 6, "openmeteo", false⟩

def wsB : Rec := ⟨3600, 52, 21, "wind_speed_100m", 7, "openmeteo", false⟩

def wsD : Rec := ⟨7200, 52, 21, "wind_speed_100m", 8, "openmeteo", true⟩

/-- A single `wind_speed_10m` record, input of the deriver witness. -/
def w10Row : Rec := ⟨0, 52, 21, "wind_speed_10m", 5, "openmeteo", false⟩

/-- The parsed form of `goodRow` (provider not yet assigned). -/
def goodRec : Rec := ⟨0, 52, 21, "temperature_2m", 21, "", false⟩

theorem pymod_nonneg (x : ℚ) : 0 ≤ pymod x 360 := by
  have h := Int.fract_nonneg (x / 360)
  have hf : pymod x 360 = 360 * Int.fract (x / 360) := by
    unfold pymod Int.fract
    ring
  rw [hf]
  positivity

theorem pymod_lt (x : ℚ) : pymod x 360 < 360 := by
  have h := Int.fract_lt_one (x / 360)
  have hf : pymod x 360 = 360 * Int.fract (x / 360) := by
    unfold pymod Int.fract
    ring
  rw [hf]
  nlinarith

/-- C1: the circular-difference formula does land in `[-180, 180)` and
takes the values the claim requires at the two cited test points; but in
`src/compare_apis/run_compare.py` the per-run summary table
(`era5_comparison_summary.csv`) computes bias, MAE and RMSE from the
plain difference `pred - era5` (line 245) for *all* variables, so a
joined direction row with predicted 350 and reference 10 contributes the
error +340 there, not the circular −20.  (The legacy
`src/stare/run_compare.py` does overwrite the error column with the
circular difference before aggregating, and `compare_apis` itself uses
the circular `error_angle` in its `api_patterns.csv` analysis table.) -/
theorem circular_error_correct_but_summary_error_linear :
    (∀ p r : ℚ, -180 ≤ circular_error_deg p r ∧ circular_error_deg p r < 180) ∧
    circular_error_deg 350 10 = -20 ∧
    circular_error_deg 5 355 = 10 ∧
    error_col (wdirRow 350 10) = 340 := by
  refine ⟨fun p r => ⟨?_, ?_⟩, ?_, ?_, ?_⟩
  · have := pymod_nonneg (p - r + 180)
    unfold circular_error_deg
    linarith
  · have := pymod_lt (p - r + 180)
    unfold circular_error_deg
    linarith
  · unfold circular_error_deg pymod
    norm_num
  · unfold circular_error_deg pymod
    norm_num
  · unfold error_col wdirRow
    norm_num

/-! ## C4: event-skill scores -/

theorem tp_fp_fn_le_length (rows : List (ℚ × ℚ)) (thr : ℚ) :
    TP rows thr + FP rows thr + FN rows thr ≤ rows.length := by
  induction rows with
  | nil => simp [TP, FP, FN]
  | cons q l ih =>
    unfold TP FP FN at *
    by_cases h1 : thr < q.1 <;> by_cases h2 : thr < q.2 <;>
      simp [List.filter_cons, h1, h2] <;> omega

/-- C4: for any set of joined precipitation rows and threshold, with
events `value > thr` judged independently for predicted and reference,
POD/FAR/CSI are NaN exactly when their denominator is zero, equal the
contingency-table ratios and lie in `[0, 1]` whenever defined, and
`TP + FP + FN` never exceeds the number of joined rows. -/
theorem skill_scores_valid (rows : List (ℚ × ℚ)) (thr : ℚ) :
    (POD rows thr = none ↔ TP rows thr + FN rows thr = 0) ∧
    (FAR rows thr = none ↔ TP rows thr + FP rows thr = 0) ∧
    (CSI rows thr = none ↔ TP rows thr + FP rows thr + FN rows thr = 0) ∧
    (∀ q, POD rows thr = some q →
      q = (TP rows thr : ℚ) / ((TP rows thr : ℚ) + (FN rows thr : ℚ)) ∧ 0 ≤ q ∧ q ≤ 1) ∧
    (∀ q, FAR rows thr = some q →
      q = (FP rows thr : ℚ) / ((TP rows thr : ℚ) + (FP rows thr : ℚ)) ∧ 0 ≤ q ∧ q ≤ 1) ∧
    (∀ q, CSI rows thr = some q →
      q = (TP rows thr : ℚ) / ((TP rows thr : ℚ) + (FP rows thr : ℚ) + (FN rows thr : ℚ)) ∧
        0 ≤ q ∧ q ≤ 1) ∧
    TP rows thr + FP rows thr + FN rows thr ≤ rows.length := by
  refine ⟨?_, ?_, ?_, ?_, ?_, ?_, tp_fp_fn_le_length rows thr⟩
  · unfold POD; split <;> simp <;> omega
  · unfold FAR; split <;> simp <;> omega
  · unfold CSI; split <;> simp <;> omega
  · intro q hq
    unfold POD at hq
    split at hq
    · rename_i hpos
      have hq' : q = (TP rows thr : ℚ) / ((TP rows thr : ℚ) + (FN rows thr : ℚ)) := by
        simpa using hq.symm
      have hden : (0 : ℚ) < (TP rows thr : ℚ) + (FN rows thr : ℚ) := by
        exact_mod_cast Nat.cast_pos.mpr hpos
      refine ⟨hq', ?_, ?_⟩
      · rw [hq']; positivity
      · rw [hq', div_le_one hden]
        nlinarith [Nat.cast_nonneg (α := ℚ) (FN rows thr)]
    · simp at hq
  · intro q hq
    unfold FAR at hq
    split at hq
    · rename_i hpos
      have hq' : q = (FP rows thr : ℚ) / ((TP rows thr : ℚ) + (FP rows thr : ℚ)) := by
        simpa using hq.symm
      have hden : (0 : ℚ) < (TP rows thr : ℚ) + (FP rows thr : ℚ) := by
        exact_mod_cast Nat.cast_pos.mpr hpos
      refine ⟨hq', ?_, ?_⟩
      · rw [hq']; positivity
      · rw [hq', div_le_one hden]
        nlinarith [Nat.cast_nonneg (α := ℚ) (TP rows thr)]
    · simp at hq
  · intro q hq
    unfold CSI at hq
    split at hq
    · rename_i hpos
      have hq' : q = (TP rows thr : ℚ) /
          ((TP rows thr : ℚ) + (FP rows thr : ℚ) + (FN rows thr : ℚ)) := by
        simpa using hq.symm
      have hden : (0 : ℚ) < (TP rows thr : ℚ) + (FP rows thr : ℚ) + (FN rows thr : ℚ) := by
        exact_mod_cast Nat.cast_pos.mpr hpos
      refine ⟨hq', ?_, ?_⟩
      · rw [hq']; positivity
      · rw [hq', div_le_one hden]
        nlinarith [Nat.cast_nonneg (α := ℚ) (FP rows thr), Nat.cast_nonneg (α := ℚ) (FN rows thr)]
    · simp at hq

/-- Witness for C4: the four joined rows `(1,1), (1,0), (0,1), (0,0)` at
threshold `1/2` give `TP = FP = FN = 1`, so `POD = 1/2` and it lies in
`[0, 1]`, and `TP + FP + FN = 3 ≤ 4`. -/
theorem skill_scores_valid_witness :
    POD [((1 : ℚ), (1 : ℚ)), (1, 0), (0, 1), (0, 0)] (1 / 2) = some (1 / 2) ∧
    (0 : ℚ) ≤ 1 / 2 ∧ (1 / 2 : ℚ) ≤ 1 ∧
    TP [((1 : ℚ), (1 : ℚ)), (1, 0), (0, 1), (0, 0)] (1 / 2) +
      FP [((1 : ℚ), (1 : ℚ)), (1, 0), (0, 1), (0, 0)] (1 / 2) +
      FN [((1 : ℚ), (1 : ℚ)), (1, 0), (0, 1), (0, 0)] (1 / 2) ≤ 4 := by
  have hpod : POD [((1 : ℚ), (1 : ℚ)), (1, 0), (0, 1), (0, 0)] (1 / 2) = some (1 / 2) := by
    unfold POD TP FN
    norm_num [List.filter]
  have h := (skill_scores_valid [((1 : ℚ), (1 : ℚ)), (1, 0), (0, 1), (0, 0)] (1 / 2)).2.2.2.1
    (1 / 2) hpod
  have hle := (skill_scores_valid [((1 : ℚ), (1 : ℚ)), (1, 0), (0, 1), (0, 0)] (1 / 2)).2.2.2.2.2.2
  exact ⟨hpod, h.2.1, h.2.2, by simpa using hle⟩

/-! ## C3: coverage bounds -/

theorem matchKey_trans {r e x : Rec} (h1 : matchKey r e = true) (h2 : matchKey r x = true) :
    matchKey e x = true := by
  simp only [matchKey, Bool.and_eq_true, beq_iff_eq] at h1 h2 ⊢
  obtain ⟨⟨⟨h1t, h1a⟩, h1o⟩, h1v⟩ := h1
  obtain ⟨⟨⟨h2t, h2a⟩, h2o⟩, h2v⟩ := h2
  refine ⟨⟨⟨?_, ?_⟩, ?_⟩, ?_⟩
  · rw [← h1t]; exact h2t
  · rw [← h1a]; exact h2a
  · rw [← h1o]; exact h2o
  · rw [← h1v]; exact h2v

theorem filter_matchKey_length_le_one {era : List Rec} (hd : keyDistinct era) (r : Rec) :
    (era.filter fun e => matchKey r e).length ≤ 1 := by
  induction era with
  | nil => simp
  | cons e l ih =>
    rw [keyDistinct, List.pairwise_cons] at hd
    by_cases h : matchKey r e = true
    · have hnone : ∀ x ∈ l, matchKey r x = false := by
        intro x hx
        by_contra hc
        have hx2 : matchKey r x = true := by
          revert hc; cases matchKey r x <;> simp
        have hex := matchKey_trans h hx2
        rw [hd.1 x hx] at hex
        cases hex
      rw [List.filter_cons_of_pos h]
      have hnil : l.filter (fun e => matchKey r e) = [] := by
        apply List.filter_eq_nil_iff.mpr
        intro x hx
        simp [hnone x hx]
      simp [hnil]
    · rw [List.filter_cons_of_neg (by simpa using h)]
      exact ih hd.2

theorem n_overlap_innerJoin (prov era : List Rec) (p v : String) :
    n_overlap (innerJoin prov era) p v
      = ((prov.filter (inGroup p v)).map fun r => (era.filter fun e => matchKey r e).length).sum := by
  induction prov with
  | nil => simp [n_overlap, innerJoin]
  | cons r l ih =>
    unfold n_overlap innerJoin at *
    rw [List.flatMap_cons, List.filter_append, List.length_append, List.filter_map]
    by_cases h : inGroup p v r = true
    · rw [List.filter_cons_of_pos h, List.map_cons, List.sum_cons]
      have hfe : (era.filter fun e => matchKey r e).filter
          ((fun row : Rec × Rec => inGroup p v row.1) ∘ fun e => (r, e))
          = era.filter fun e => matchKey r e := by
        apply List.filter_eq_self.mpr
        intro e he
        simpa [Function.comp] using h
      rw [hfe, List.length_map, ih]
    · rw [List.filter_cons_of_neg (by simpa using h)]
      have hnil : (era.filter fun e => matchKey r e).filter
          ((fun row : Rec × Rec => inGroup p v row.1) ∘ fun e => (r, e)) = [] := by
        apply List.filter_eq_nil_iff.mpr
        intro e he
        simpa [Function.comp] using h
      rw [hnil]
      simpa using ih

theorem roundEven_nonneg {y : ℚ} (hy : 0 ≤ y) : 0 ≤ roundEven y := by
  have hf : (0 : ℤ) ≤ ⌊y⌋ := Int.floor_nonneg.mpr hy
  unfold roundEven
  split
  · exact hf
  · split
    · omega
    · split
      · exact hf
      · omega

theorem roundEven_le {y : ℚ} {n : ℤ} (hy : y ≤ n) : roundEven y ≤ n := by
  have hf : ⌊y⌋ ≤ n := by
    have h1 := Int.floor_le_floor hy
    simpa using h1
  have hkey : (1 : ℚ) / 2 ≤ y - ⌊y⌋ → ⌊y⌋ + 1 ≤ n := by
    intro hr
    have h1 : (⌊y⌋ : ℚ) + 1 / 2 ≤ y := by linarith
    have h2 : (⌊y⌋ : ℚ) < (n : ℚ) := by linarith
    have h3 : ⌊y⌋ < n := by exact_mod_cast h2
    omega
  unfold roundEven
  split
  · exact hf
  · rename_i h1
    push_neg at h1
    split
    · exact hkey h1
    · split
      · exact hf
      · exact hkey h1

theorem roundEven_pos {y : ℚ} (hy : 1 / 2 < y) : 1 ≤ roundEven y := by
  have hf : (0 : ℤ) ≤ ⌊y⌋ := Int.floor_nonneg.mpr (by linarith)
  have hfl := Int.floor_le y
  unfold roundEven
  split
  · rename_i h1
    have h2 : (1 : ℚ) / 2 < (⌊y⌋ : ℚ) + 1 / 2 := by linarith
    have h3 : (0 : ℚ) < (⌊y⌋ : ℚ) := by linarith
    have h4 : (0 : ℤ) < ⌊y⌋ := by exact_mod_cast h3
    omega
  · rename_i h1
    push_neg at h1
    split
    · omega
    · split
      · have h2 : (1 : ℚ) / 2 < (⌊y⌋ : ℚ) + (y - ⌊y⌋) := by linarith
        rename_i h3 h4
        push_neg at h3
        have htie : y - ⌊y⌋ = 1 / 2 := le_antisymm h3 h1
        have h5 : (0 : ℚ) < (⌊y⌋ : ℚ) := by linarith
        have h6 : (0 : ℤ) < ⌊y⌋ := by exact_mod_cast h5
        omega
      · omega

theorem round2_nonneg {x : ℚ} (hx : 0 ≤ x) : 0 ≤ round2 x := by
  unfold round2
  have h1 : (0 : ℤ) ≤ roundEven (100 * x) := roundEven_nonneg (by linarith)
  have h2 : (0 : ℚ) ≤ (roundEven (100 * x) : ℚ) := by exact_mod_cast h1
  linarith

theorem round2_le_hundred {x : ℚ} (hx : x ≤ 100) : round2 x ≤ 100 := by
  unfold round2
  have h1 : roundEven (100 * x) ≤ (10000 : ℤ) := roundEven_le (by push_cast; linarith)
  have h2 : (roundEven (100 * x) : ℚ) ≤ 10000 := by exact_mod_cast h1
  linarith

theorem round2_pos {x : ℚ} (hx : 1 / 200 < x) : 0 < round2 x := by
  unfold round2
  have h1 : (1 : ℤ) ≤ roundEven (100 * x) := roundEven_pos (by linarith)
  have h2 : (1 : ℚ) ≤ (roundEven (100 * x) : ℚ) := by exact_mod_cast h1
  linarith

/-- Counterexample to C3 as stated: the pipeline never deduplicates the
reference feed, so a reference feed with the same key twice joins each
provider record twice and produces `coverage_pct = 200 > 100`. -/
theorem coverage_pct_above_100 :
    coverage_pct [provRow] (innerJoin [provRow] [eraRow, eraRow]) "openmeteo" "temperature_2m"
        = 200 ∧
    ¬ coverage_pct [provRow] (innerJoin [provRow] [eraRow, eraRow]) "openmeteo" "temperature_2m"
        ≤ 100 := by
  have hmatch : matchKey provRow eraRow = true := by
    simp [matchKey, provRow, eraRow]
  have hgrp : inGroup "openmeteo" "temperature_2m" provRow = true := by
    simp [inGroup, provRow]
  have hcov : coverage_pct [provRow] (innerJoin [provRow] [eraRow, eraRow])
      "openmeteo" "temperature_2m" = 200 := by
    unfold coverage_pct n_provider n_overlap innerJoin
    simp only [List.flatMap_cons, List.flatMap_nil, List.filter_cons, hmatch, hgrp,
      List.filter_nil, List.map_cons, List.map_nil, List.append_nil, if_true]
    norm_num [round2, roundEven]
  exact ⟨hcov, by rw [hcov]; norm_num⟩

/-- C3 (amended): provided the reference feed satisfies the spec §3
key-uniqueness invariant, every group's `coverage_pct` lies in
`[0, 100]`, is `0` (not a division error) when `native_count = 0`, and
is `100` when the group is non-empty and every native record of the
group has a matching reference key.  (Without that invariant a
duplicated reference key makes `coverage_pct` exceed 100.) -/
theorem coverage_pct_bounds (prov era : List Rec) (p v : String) (hd : keyDistinct era) :
    0 ≤ coverage_pct prov (innerJoin prov era) p v ∧
    coverage_pct prov (innerJoin prov era) p v ≤ 100 ∧
    (n_provider prov p v = 0 → coverage_pct prov (innerJoin prov era) p v = 0) ∧
    (0 < n_provider prov p v →
      (∀ r ∈ prov.filter (inGroup p v), ∃ e ∈ era, matchKey r e = true) →
      coverage_pct prov (innerJoin prov era) p v = 100) := by
  have hle : n_overlap (innerJoin prov era) p v ≤ n_provider prov p v := by
    rw [n_overlap_innerJoin, n_provider]
    calc ((prov.filter (inGroup p v)).map
            fun r => (era.filter fun e => matchKey r e).length).sum
        ≤ ((prov.filter (inGroup p v)).map fun r => 1).sum :=
          List.sum_le_sum fun r hr => filter_matchKey_length_le_one hd r
      _ = (prov.filter (inGroup p v)).length := by simp
  refine ⟨?_, ?_, fun h => by unfold coverage_pct; rw [if_pos h], ?_⟩
  · unfold coverage_pct
    split
    · exact le_refl 0
    · apply round2_nonneg
      positivity
  · unfold coverage_pct
    split
    · norm_num
    · rename_i hn0
      have hn : (0 : ℚ) < (n_provider prov p v : ℚ) := by
        exact_mod_cast Nat.pos_of_ne_zero hn0
      apply round2_le_hundred
      rw [div_le_iff₀ hn]
      have : (n_overlap (innerJoin prov era) p v : ℚ) ≤ (n_provider prov p v : ℚ) := by
        exact_mod_cast hle
      nlinarith
  · intro hn hall
    have hone : ∀ r ∈ prov.filter (inGroup p v),
        (era.filter fun e => matchKey r e).length = 1 := by
      intro r hr
      have h1 := filter_matchKey_length_le_one hd r
      obtain ⟨e, he, hme⟩ := hall r hr
      have h2 : 0 < (era.filter fun e => matchKey r e).length := by
        apply List.length_pos.mpr
        intro hnil
        have : e ∈ era.filter fun e => matchKey r e := List.mem_filter.mpr ⟨he, hme⟩
        rw [hnil] at this
        cases this
      omega
    have heq : n_overlap (innerJoin prov era) p v = n_provider prov p v := by
      rw [n_overlap_innerJoin, n_provider]
      rw [List.map_congr_left hone]
      simp
    have hn0 : n_provider prov p v ≠ 0 := Nat.pos_iff_ne_zero.mp hn
    unfold coverage_pct
    rw [if_neg hn0, heq]
    have hnq : (n_provider prov p v : ℚ) ≠ 0 := by exact_mod_cast hn0
    rw [mul_div_assoc, div_self hnq, mul_one]
    norm_num [round2, roundEven]

/-- Witness for C3: one provider record joined against a key-unique
one-record reference feed has coverage 100, inside `[0, 100]`. -/
theorem coverage_pct_bounds_witness :
    0 ≤ coverage_pct [provRow] (innerJoin [provRow] [eraRow]) "openmeteo" "temperature_2m" ∧
    coverage_pct [provRow] (innerJoin [provRow] [eraRow]) "openmeteo" "temperature_2m" ≤ 100 ∧
    coverage_pct [provRow] (innerJoin [provRow] [eraRow]) "openmeteo" "temperature_2m" = 100 := by
  have hd : keyDistinct [eraRow] := by
    unfold keyDistinct
    simp
  have h := coverage_pct_bounds [provRow] [eraRow] "openmeteo" "temperature_2m" hd
  refine ⟨h.1, h.2.1, h.2.2.2 ?_ ?_⟩
  · unfold n_provider
    simp [inGroup, provRow]
  · intro r hr
    refine ⟨eraRow, by simp, ?_⟩
    have hrp : r = provRow := by
      simpa using (List.mem_filter.mp hr).1
    rw [hrp]
    simp [matchKey, provRow, eraRow]

/-! ## C6: empty join -/

/-- C6: when the aligned join is empty, the pipeline (a total function
here, so it cannot raise) still emits one metric row per
`(provider, variable)` group of the post-derivation provider table, each
with a joined count of 0 and every statistic NaN. -/
theorem empty_join_rows (prov era : List Rec) (factor : ℚ)
    (hempty : innerJoin (run_post prov factor)
      (era.filter fun r => TARGET_VARS.contains r.var) = []) :
    (run_summary prov era factor).length = (groupsOf (run_post prov factor)).length ∧
    (∀ g ∈ groupsOf (run_post prov factor), ∃ row ∈ run_summary prov era factor,
      row.provider = g.1 ∧ row.var = g.2) ∧
    (∀ row ∈ run_summary prov era factor,
      row.n_overlap = some 0 ∧ row.bias_mean = none ∧ row.mae = none ∧
      row.rmse_sq = none ∧ row.corr = none ∧ row.over_pct = none ∧ row.under_pct = none) := by
  unfold run_summary
  rw [hempty]
  refine ⟨by simp, ?_, ?_⟩
  · intro g hg
    refine ⟨metricRowFor (run_post prov factor) [] g.1 g.2, List.mem_map_of_mem _ hg, ?_⟩
    unfold metricRowFor
    simp
  · intro row hrow
    obtain ⟨g, hg, hrg⟩ := List.mem_map.mp hrow
    rw [← hrg]
    unfold metricRowFor
    simp

/-- Witness for C6: a provider feed and a reference feed with disjoint
hours produce an empty join, and the summary still carries the
`(openmeteo, temperature_2m)` group with zero count and NaN statistics. -/
theorem empty_join_rows_witness :
    (run_summary [provRow] [eraRowLater] 1).length
        = (groupsOf (run_post [provRow] 1)).length ∧
    ∀ row ∈ run_summary [provRow] [eraRowLater] 1,
      row.n_overlap = some 0 ∧ row.bias_mean = none ∧ row.mae = none ∧
      row.rmse_sq = none ∧ row.corr = none ∧ row.over_pct = none ∧ row.under_pct = none := by
  have hpost : run_post [provRow] 1 = [provRow] := by
    unfold run_post ensure_target_vars
    simp [provRow, TARGET_VARS]
  have hempty : innerJoin (run_post [provRow] 1)
      (([eraRowLater] : List Rec).filter fun r => TARGET_VARS.contains r.var) = [] := by
    rw [hpost]
    have hmk : matchKey provRow eraRowLater = false := by
      simp [matchKey, provRow, eraRowLater]
    simp [innerJoin, List.filter, hmk]
  have h := empty_join_rows [provRow] [eraRowLater] 1 hempty
  exact ⟨h.1, h.2.2⟩

/-! ## C10: loader behaviour -/

/-- C10: loading raises exactly when a required column is absent; an
individual row is dropped (contributing nothing downstream) exactly when
one of its `time`, `latitude`, `longitude`, `variable` or `value` cells
fails to parse, and removing such a row from the feed does not change
the loader's output at all. -/
theorem load_drops_bad_rows (pt pn : String → Option ℚ) (header : List String)
    (rows : List RawRow) :
    ((∃ out, load_long_csv pt pn header rows = .ok out) ↔ ∀ c ∈ REQUIRED_COLS, c ∈ header) ∧
    (∀ r : RawRow, parseRow pt pn r = none ↔
      (pt r.time = none ∨ pn r.latitude = none ∨ pn r.longitude = none ∨
        r.var = none ∨ pn r.value = none)) ∧
    (∀ pre post (r : RawRow), parseRow pt pn r = none →
      load_long_csv pt pn header (pre ++ r :: post) = load_long_csv pt pn header (pre ++ post)) := by
  refine ⟨?_, ?_, ?_⟩
  · unfold load_long_csv
    split
    · rename_i hall
      simp only [List.all_eq_true, decide_eq_true_eq] at hall
      constructor
      · intro _ c hc
        exact hall c hc
      · intro _; exact ⟨_, rfl⟩
    · rename_i hall
      simp only [List.all_eq_true, decide_eq_true_eq] at hall
      push_neg at hall
      obtain ⟨c, hc, hnc⟩ := hall
      constructor
      · rintro ⟨out, hout⟩; cases hout
      · intro hmem
        exact absurd (hmem c hc) hnc
  · intro r
    unfold parseRow
    rcases hpt : pt r.time with _ | t <;>
      rcases hla : pn r.latitude with _ | la <;>
      rcases hlo : pn r.longitude with _ | lo <;>
      rcases hv : r.var with _ | v <;>
      rcases hx : pn r.value with _ | x <;>
      simp
  · intro pre post r hr
    unfold load_long_csv
    split
    · simp [List.filterMap_append, hr]
    · rfl

/-- Witness for C10: with a complete header, the feed containing the
unparseable row loads to exactly the same records as the feed without
it. -/
theorem load_drops_bad_rows_witness :
    load_long_csv ptEx pnEx headerEx [goodRow, badRow] =
      load_long_csv ptEx pnEx headerEx [goodRow] := by
  have hr : parseRow ptEx pnEx badRow = none := by
    unfold parseRow badRow ptEx pnEx
    simp
  simpa using (load_drops_bad_rows ptEx pnEx headerEx []).2.2 [goodRow] [] badRow hr

/-! ## C2: the Variable Deriver -/

theorem sameKeyP_iff {a b : Rec} : sameKeyP a b = true ↔
    a.time = b.time ∧ a.latitude = b.latitude ∧ a.longitude = b.longitude ∧
      a.provider = b.provider := by
  simp [sameKeyP, Bool.and_eq_true, beq_iff_eq, and_assoc]

theorem speedAdd_nil {df : List Rec} {factor : ℚ}
    (h : (df.any fun r => r.var == "wind_speed_10m") = false) : speedAdd df factor = [] := by
  unfold speedAdd
  rw [List.any_eq_false] at h
  rw [List.filter_eq_nil_iff.mpr h]
  rfl

theorem dirAdd_nil {df : List Rec}
    (h : (df.any fun r => r.var == "wind_direction_10m") = false) : dirAdd df = [] := by
  unfold dirAdd
  rw [List.any_eq_false] at h
  rw [List.filter_eq_nil_iff.mpr h]
  rfl

theorem ensure_target_vars_eq (df : List Rec) (factor : ℚ) :
    ensure_target_vars df factor
      = df ++ speedAdd df factor ++ dirAdd (df ++ speedAdd df factor) := by
  unfold ensure_target_vars
  by_cases h1 : (df.any fun r => r.var == "wind_speed_10m") = true
  · simp only [h1, if_true]
    by_cases h2 : ((df ++ speedAdd df factor).any fun r => r.var == "wind_direction_10m") = true
    · simp only [h2, if_true]
    · simp only [Bool.not_eq_true] at h2
      simp only [h2, Bool.false_eq_true, if_false, dirAdd_nil h2, List.append_nil]
  · simp only [Bool.not_eq_true] at h1
    simp only [h1, Bool.false_eq_true, if_false, speedAdd_nil h1, List.append_nil]
    by_cases h2 : (df.any fun r => r.var == "wind_direction_10m") = true
    · simp only [h2, if_true]
    · simp only [Bool.not_eq_true] at h2
      simp only [h2, Bool.false_eq_true, if_false, dirAdd_nil h2, List.append_nil]

theorem mem_speedAdd {df : List Rec} {factor : ℚ} {x : Rec} :
    x ∈ speedAdd df factor ↔
      (∃ r ∈ df, r.var = "wind_speed_10m" ∧
        x = { r with var := "wind_speed_100m", value := r.value * factor, derived := true }) ∧
      ∀ h ∈ df, h.var = "wind_speed_100m" → sameKeyP h x = false := by
  unfold speedAdd
  rw [List.mem_filter]
  simp only [List.mem_map, List.mem_filter, beq_iff_eq, Bool.not_eq_true',
    List.any_eq_false]
  constructor
  · rintro ⟨⟨r, ⟨hr, hrv⟩, hx⟩, hall⟩
    refine ⟨⟨r, hr, hrv, hx.symm⟩, fun h hh hv => ?_⟩
    have := hall h ⟨hh, hv⟩
    simpa using this
  · rintro ⟨⟨r, hr, hrv, hx⟩, hall⟩
    refine ⟨⟨r, ⟨hr, hrv⟩, hx.symm⟩, fun h hmem => ?_⟩
    simp [hall h hmem.1 hmem.2]

theorem mem_dirAdd {df : List Rec} {x : Rec} :
    x ∈ dirAdd df ↔
      (∃ r ∈ df, r.var = "wind_direction_10m" ∧
        x = { r with var := "wind_direction_100m", derived := true }) ∧
      ∀ h ∈ df, h.var = "wind_direction_100m" → sameKeyP h x = false := by
  unfold dirAdd
  rw [List.mem_filter]
  simp only [List.mem_map, List.mem_filter, beq_iff_eq, Bool.not_eq_true',
    List.any_eq_false]
  constructor
  · rintro ⟨⟨r, ⟨hr, hrv⟩, hx⟩, hall⟩
    refine ⟨⟨r, hr, hrv, hx.symm⟩, fun h hh hv => ?_⟩
    have := hall h ⟨hh, hv⟩
    simpa using this
  · rintro ⟨⟨r, hr, hrv, hx⟩, hall⟩
    refine ⟨⟨r, ⟨hr, hrv⟩, hx.symm⟩, fun h hmem => ?_⟩
    simp [hall h hmem.1 hmem.2]

/-- C2: after the deriver runs, the augmented set contains a derived
`wind_speed_100m` record with value `v10 * factor`
(`factor = (100/10)^alpha`) at exactly those (time, latitude, longitude)
keys (within one provider) where a `wind_speed_10m` record exists but no
native `wind_speed_100m` record does, each key independently; every
input record is kept unchanged, and every non-derived record of the
output is an input record, so a derived value never replaces or
duplicates a native one. -/
theorem derive_speed_per_key (df : List Rec) (factor : ℚ)
    (hnd : ∀ r ∈ df, r.derived = false) :
    (∀ r ∈ df, r ∈ ensure_target_vars df factor) ∧
    (∀ x ∈ ensure_target_vars df factor, x.derived = false → x ∈ df) ∧
    (∀ t la lo p v,
      ((⟨t, la, lo, "wind_speed_100m", v, p, true⟩ : Rec) ∈ ensure_target_vars df factor ↔
        ((∃ r ∈ df, r.var = "wind_speed_10m" ∧ r.time = t ∧ r.latitude = la ∧
            r.longitude = lo ∧ r.provider = p ∧ v = r.value * factor) ∧
          ¬ ∃ h ∈ df, h.var = "wind_speed_100m" ∧ h.time = t ∧ h.latitude = la ∧
            h.longitude = lo ∧ h.provider = p))) := by
  refine ⟨?_, ?_, ?_⟩
  · intro r hr
    rw [ensure_target_vars_eq]
    simp [hr]
  · intro x hx hxd
    rw [ensure_target_vars_eq, List.mem_append, List.mem_append] at hx
    rcases hx with (hx | hx) | hx
    · exact hx
    · obtain ⟨⟨r, hr, hrv, hxr⟩, -⟩ := mem_speedAdd.mp hx
      rw [hxr] at hxd
      simp at hxd
    · obtain ⟨⟨r, hr, hrv, hxr⟩, -⟩ := mem_dirAdd.mp hx
      rw [hxr] at hxd
      simp at hxd
  · intro t la lo p v
    rw [ensure_target_vars_eq, List.mem_append, List.mem_append]
    constructor
    · rintro ((hx | hx) | hx)
      · have := hnd _ hx
        simp at this
      · obtain ⟨⟨r, hr, hrv, hxr⟩, hall⟩ := mem_speedAdd.mp hx
        have hfields := (Rec.mk.injEq _ _ _ _ _ _ _ _ _ _ _ _ _ _).mp hxr
        obtain ⟨ht, hla, hlo, -, hv, hp, -⟩ := hfields
        refine ⟨⟨r, hr, hrv, ht.symm, hla.symm, hlo.symm, hp.symm, hv⟩, ?_⟩
        rintro ⟨h, hh, hhv, hht, hhla, hhlo, hhp⟩
        have hkey : sameKeyP h (⟨t, la, lo, "wind_speed_100m", v, p, true⟩ : Rec) = true := by
          rw [sameKeyP_iff]
          exact ⟨hht, hhla, hhlo, hhp⟩
        rw [hall h hh hhv] at hkey
        cases hkey
      · obtain ⟨⟨r, hr, hrv, hxr⟩, -⟩ := mem_dirAdd.mp hx
        have hfields := (Rec.mk.injEq _ _ _ _ _ _ _ _ _ _ _ _ _ _).mp hxr
        obtain ⟨-, -, -, hbad, -⟩ := hfields
        exact absurd hbad (by decide)
    · rintro ⟨⟨r, hr, hrv, ht, hla, hlo, hp, hv⟩, hno⟩
      refine Or.inl (Or.inr (mem_speedAdd.mpr ⟨⟨r, hr, hrv, ?_⟩, ?_⟩))
      · have hrec : ({ r with var := "wind_speed_100m", value := r.value * factor, derived := true } : Rec) = ⟨r.time, r.latitude, r.longitude, "wind_speed_100m", r.value * factor, r.provider, true⟩ := rfl
        rw [hrec, ht, hla, hlo, hp, hv]
      · intro h hh hhv
        by_contra hc
        have hkey : sameKeyP h (⟨t, la, lo, "wind_speed_100m", v, p, true⟩ : Rec) = true := by
          revert hc
          cases sameKeyP h (⟨t, la, lo, "wind_speed_100m", v, p, true⟩ : Rec) <;> simp
        rw [sameKeyP_iff] at hkey
        exact hno ⟨h, hh, hhv, hkey.1, hkey.2.1, hkey.2.2.1, hkey.2.2.2⟩

/-- Witness for C2: from a single 10 m record with value 5 and
`factor = 2`, the deriver produces the marked 100 m record with value
10. -/
theorem derive_speed_per_key_witness :
    (⟨0, 52, 21, "wind_speed_100m", 10, "openmeteo", true⟩ : Rec)
      ∈ ensure_target_vars [w10Row] 2 := by
  have hnd : ∀ r ∈ ([w10Row] : List Rec), r.derived = false := by
    intro r hr
    simp at hr
    rw [hr]
    rfl
  apply ((derive_speed_per_key [w10Row] 2 hnd).2.2 0 52 21 "openmeteo" 10).mpr
  refine ⟨⟨w10Row, by simp, rfl, rfl, rfl, rfl, rfl, by norm_num [w10Row]⟩, ?_⟩
  rintro ⟨h, hh, hv, -⟩
  simp at hh
  rw [hh] at hv
  exact absurd hv (by decide)

/-! ## C5: duplicate keys -/

/-- Counterexample to C5 as stated: two records of one source with the
same key and values 10 and 20, joined against a reference value 10, are
both retained: the group counts 2 records (not 1), the join yields 2
rows, and the bias averages the two errors to 5 — whereas under
first-wins retention (second conjunct pair) the count would be 1 and the
bias 0. -/
theorem duplicates_not_first_wins :
    n_provider [dupA, dupB] "openmeteo" "temperature_2m" = 2 ∧
    (innerJoin [dupA, dupB] [eraRow]).length = 2 ∧
    mean (errsOf (innerJoin [dupA, dupB] [eraRow]) "openmeteo" "temperature_2m") = some 5 ∧
    n_provider [dupA] "openmeteo" "temperature_2m" = 1 ∧
    mean (errsOf (innerJoin [dupA] [eraRow]) "openmeteo" "temperature_2m") = some 0 := by
  have hmA : matchKey dupA eraRow = true := by simp [matchKey, dupA, eraRow]
  have hmB : matchKey dupB eraRow = true := by simp [matchKey, dupB, eraRow]
  have hgA : inGroup "openmeteo" "temperature_2m" dupA = true := by simp [inGroup, dupA]
  have hgB : inGroup "openmeteo" "temperature_2m" dupB = true := by simp [inGroup, dupB]
  refine ⟨?_, ?_, ?_, ?_, ?_⟩
  · simp [n_provider, List.filter, hgA, hgB]
  · simp [innerJoin, List.filter, hmA, hmB]
  · have hj : innerJoin [dupA, dupB] [eraRow] = [(dupA, eraRow), (dupB, eraRow)] := by
      simp [innerJoin, List.filter, hmA, hmB]
    have he : errsOf [(dupA, eraRow), (dupB, eraRow)] "openmeteo" "temperature_2m"
        = [dupA.value - eraRow.value, dupB.value - eraRow.value] := by
      simp [errsOf, List.filter, hgA, hgB, error_col]
    have hv : ([dupA.value - eraRow.value, dupB.value - eraRow.value] : List ℚ) = [0, 10] := by
      norm_num [dupA, dupB, eraRow]
    rw [hj, he, hv]
    simp [mean]
    norm_num
  · simp [n_provider, List.filter, hgA]
  · have hj : innerJoin [dupA] [eraRow] = [(dupA, eraRow)] := by
      simp [innerJoin, List.filter, hmA]
    have he : errsOf [(dupA, eraRow)] "openmeteo" "temperature_2m"
        = [dupA.value - eraRow.value] := by
      simp [errsOf, List.filter, hgA, error_col]
    have hv : ([dupA.value - eraRow.value] : List ℚ) = [0] := by
      norm_num [dupA, eraRow]
    rw [hj, he, hv]
    simp [mean]

/-- C5 (amended): the pipeline performs no deduplication at all: the
loader keeps every parseable row with its multiplicity, a record
occurring twice contributes its reference matches twice to the join, and
twice to the group count — duplicates are retained, contribute to all
downstream counts, joins and metrics, and are not fatal. -/
theorem duplicates_all_retained (pt pn : String → Option ℚ) (header : List String)
    (rows : List RawRow) (out : List Rec) (rec r : Rec) (dfP era : List Rec)
    (hok : load_long_csv pt pn header rows = .ok out) :
    out.count rec = rows.countP (fun row => parseRow pt pn row == some rec) ∧
    (innerJoin (r :: r :: dfP) era).length
      = 2 * (era.filter fun e => matchKey r e).length + (innerJoin dfP era).length ∧
    n_provider (r :: r :: dfP) r.provider r.var = 2 + n_provider dfP r.provider r.var := by
  refine ⟨?_, ?_, ?_⟩
  · have hout : out = rows.filterMap (parseRow pt pn) := by
      unfold load_long_csv at hok
      split at hok
      · cases hok; rfl
      · cases hok
    rw [hout, List.count_filterMap]
  · unfold innerJoin
    rw [List.flatMap_cons, List.flatMap_cons, List.length_append, List.length_append,
      List.length_map]
    omega
  · have hg : inGroup r.provider r.var r = true := by simp [inGroup]
    unfold n_provider
    rw [List.filter_cons_of_pos hg, List.filter_cons_of_pos hg]
    simp
    omega

/-- Witness for C5 (amended): a feed with the same parseable row twice
loads to two records, and a duplicated provider record joins the
reference once per copy. -/
theorem duplicates_all_retained_witness :
    ([goodRec, goodRec] : List Rec).count goodRec
        = ([goodRow, goodRow] : List RawRow).countP
            (fun row => parseRow ptEx pnEx row == some goodRec) ∧
    (innerJoin [dupA, dupA] [eraRow]).length
        = 2 * (([eraRow] : List Rec).filter fun e => matchKey dupA e).length
          + (innerJoin ([] : List Rec) [eraRow]).length := by
  have hok : load_long_csv ptEx pnEx headerEx [goodRow, goodRow] = .ok [goodRec, goodRec] := by
    unfold load_long_csv
    rw [if_pos (by decide)]
    have hg : parseRow ptEx pnEx goodRow = some goodRec := by
      unfold parseRow goodRow ptEx pnEx goodRec
      simp
    simp [hg]
  have h := duplicates_all_retained ptEx pnEx headerEx [goodRow, goodRow] [goodRec, goodRec]
    goodRec dupA [] [eraRow] hok
  exact ⟨h.1, h.2.1⟩

/-! ## C7: derived percentage -/

/-- Counterexample to C7 as stated: a group of 3 records with 1 derived
has `derived_pct = 33.33` in the summary (pandas `.round(2)` of line
279), which differs from the claimed exact value `100 * 1 / 3`. -/
theorem derived_pct_not_exact :
    derived_pct [wsA, wsB, wsD] "openmeteo" "wind_speed_100m" = 3333 / 100 ∧
    100 * (derived_n [wsA, wsB, wsD] "openmeteo" "wind_speed_100m" : ℚ)
        / (n_provider [wsA, wsB, wsD] "openmeteo" "wind_speed_100m" : ℚ) = 100 / 3 ∧
    (3333 / 100 : ℚ) ≠ 100 / 3 := by
  have hgA : inGroup "openmeteo" "wind_speed_100m" wsA = true := by simp [inGroup, wsA]
  have hgB : inGroup "openmeteo" "wind_speed_100m" wsB = true := by simp [inGroup, wsB]
  have hgD : inGroup "openmeteo" "wind_speed_100m" wsD = true := by simp [inGroup, wsD]
  have hn : n_provider [wsA, wsB, wsD] "openmeteo" "wind_speed_100m" = 3 := by
    simp [n_provider, List.filter, hgA, hgB, hgD]
  have hd : derived_n [wsA, wsB, wsD] "openmeteo" "wind_speed_100m" = 1 := by
    simp [derived_n, List.filter, hgA, hgB, hgD, wsA, wsB, wsD, inGroup]
  refine ⟨?_, ?_, by norm_num⟩
  · unfold derived_pct
    rw [hn, hd, if_neg (by norm_num)]
    norm_num [round2, roundEven]
  · rw [hn, hd]
    norm_num

/-- C7 (amended): `derived_count` never exceeds `native_count`, and
`derived_pct` equals `100 * derived_count / native_count` rounded to two
decimals half-to-even (0 rather than a division error when
`native_count` is 0); it is 0 whenever no record of the group was
derived, lies in `[0, 100]`, and is strictly positive when at least one
record was derived and the exact percentage strictly exceeds the 0.005
rounding tie (equivalently `native_count < 20000 * derived_count`) —
whereas at the exact boundary `native_count = 20000 * derived_count`
the percentage is exactly 0.005 and numpy rounds the tie down to 0.00. -/
theorem derived_pct_props (prov : List Rec) (p v : String) :
    derived_n prov p v ≤ n_provider prov p v ∧
    (derived_n prov p v = 0 → derived_pct prov p v = 0) ∧
    (n_provider prov p v ≠ 0 →
      derived_pct prov p v
        = round2 (100 * (derived_n prov p v : ℚ) / (n_provider prov p v : ℚ))) ∧
    (0 < derived_n prov p v → n_provider prov p v < 20000 * derived_n prov p v →
      0 < derived_pct prov p v) ∧
    (n_provider prov p v = 20000 * derived_n prov p v → derived_pct prov p v = 0) ∧
    0 ≤ derived_pct prov p v ∧ derived_pct prov p v ≤ 100 := by
  have hsub : derived_n prov p v ≤ n_provider prov p v := by
    unfold derived_n n_provider
    induction prov with
    | nil => simp
    | cons a l ih =>
      by_cases h1 : inGroup p v a = true <;> by_cases h2 : a.derived = true <;>
        simp [List.filter_cons, h1, h2] <;> omega
  refine ⟨hsub, ?_, ?_, ?_, ?_, ?_, ?_⟩
  · intro h0
    unfold derived_pct
    split
    · rfl
    · rw [h0]
      norm_num [round2, roundEven]
  · intro hn
    unfold derived_pct
    rw [if_neg hn]
  · intro hdpos hnlt
    have hn0 : n_provider prov p v ≠ 0 := by omega
    have hnq : (0 : ℚ) < (n_provider prov p v : ℚ) := by
      exact_mod_cast Nat.pos_of_ne_zero hn0
    unfold derived_pct
    rw [if_neg hn0]
    apply round2_pos
    rw [lt_div_iff₀ hnq]
    have h2 : (n_provider prov p v : ℚ) < 20000 * (derived_n prov p v : ℚ) := by
      exact_mod_cast hnlt
    linarith
  · intro heq
    by_cases hn0 : n_provider prov p v = 0
    · unfold derived_pct
      rw [if_pos hn0]
    · have hd0 : derived_n prov p v ≠ 0 := by omega
      have hdq : (derived_n prov p v : ℚ) ≠ 0 := by exact_mod_cast hd0
      have hq : 100 * (derived_n prov p v : ℚ) / (n_provider prov p v : ℚ) = 1 / 200 := by
        rw [heq]
        push_cast
        field_simp
        ring
      unfold derived_pct
      rw [if_neg hn0, hq]
      norm_num [round2, roundEven]
  · unfold derived_pct
    split
    · exact le_refl 0
    · apply round2_nonneg
      positivity
  · unfold derived_pct
    split
    · norm_num
    · rename_i hn0
      have hnq : (0 : ℚ) < (n_provider prov p v : ℚ) := by
        exact_mod_cast Nat.pos_of_ne_zero hn0
      apply round2_le_hundred
      rw [div_le_iff₀ hnq]
      have : (derived_n prov p v : ℚ) ≤ (n_provider prov p v : ℚ) := by exact_mod_cast hsub
      nlinarith

/-- Witness for C7 (amended): the 3-record group with 1 derived record
has a strictly positive, bounded `derived_pct`. -/
theorem derived_pct_props_witness :
    derived_n [wsA, wsB, wsD] "openmeteo" "wind_speed_100m"
        ≤ n_provider [wsA, wsB, wsD] "openmeteo" "wind_speed_100m" ∧
    0 < derived_pct [wsA, wsB, wsD] "openmeteo" "wind_speed_100m" ∧
    derived_pct [wsA, wsB, wsD] "openmeteo" "wind_speed_100m" ≤ 100 := by
  have h := derived_pct_props [wsA, wsB, wsD] "openmeteo" "wind_speed_100m"
  refine ⟨h.1, h.2.2.2.1 ?_ ?_, h.2.2.2.2.2.2⟩
  · have hgD : inGroup "openmeteo" "wind_speed_100m" wsD = true := by simp [inGroup, wsD]
    simp [derived_n, List.filter, hgD, wsA, wsB, wsD, inGroup]
  · have hgA : inGroup "openmeteo" "wind_speed_100m" wsA = true := by simp [inGroup, wsA]
    have hgB : inGroup "openmeteo" "wind_speed_100m" wsB = true := by simp [inGroup, wsB]
    have hgD : inGroup "openmeteo" "wind_speed_100m" wsD = true := by simp [inGroup, wsD]
    have hn : n_provider [wsA, wsB, wsD] "openmeteo" "wind_speed_100m" = 3 := by
      simp [n_provider, List.filter, hgA, hgB, hgD]
    have hd : derived_n [wsA, wsB, wsD] "openmeteo" "wind_speed_100m" = 1 := by
      simp [derived_n, List.filter, hgA, hgB, hgD, wsA, wsB, wsD, inGroup]
    omega

/-! ## C8: linear-fit degeneracy -/

theorem zipWith_replicate_right_fn {α β γ : Type} (f : α → β → γ) (l : List α) (c : β) :
    List.zipWith f l (List.replicate l.length c) = l.map fun a => f a c := by
  induction l with
  | nil => rfl
  | cons a l ih => simp [List.replicate_succ, ih]

/-- Counterexample to C8 as stated: with 3 points and constant reference
values `[1, 1, 1]` (a degenerate design matrix), `linfit` does not
return NaN: `np.linalg.lstsq` yields the finite minimum-norm solution
slope 1, intercept 1, and R² evaluates to 0. -/
theorem linfit_const_reference_not_nan :
    linfit [1, 1, 1] [1, 2, 3] = some (1, 1, some 0) ∧
    ¬ ([1, 1, 1] : List ℚ).length < 3 ∧
    ∀ a ∈ ([1, 1, 1] : List ℚ), a = 1 := by
  refine ⟨by unfold linfit; norm_num, by simp, ?_⟩
  intro a ha
  simp at ha
  exact ha

/-- C8 (amended): `linfit` reports slope, intercept and R² as NaN
exactly when fewer than 3 points exist; with at least 3 points and
constant reference values it instead returns the finite minimum-norm
least-squares solution (whose predictions all equal the mean of the
predicted values), with R² equal to 0 when the predicted values are not
all equal and NaN when they are. -/
theorem linfit_degenerate (x y : List ℚ) (hlen : x.length = y.length) :
    (linfit x y = none ↔ x.length < 3) ∧
    (3 ≤ x.length → (∀ a ∈ x, a = x.headI) →
      ∃ r2 : Option ℚ, linfit x y
          = some (x.headI * (y.sum / x.length) / (x.headI ^ 2 + 1),
              y.sum / x.length / (x.headI ^ 2 + 1), r2) ∧
        (r2 = none ↔ (y.map fun b => (b - y.sum / x.length) ^ 2).sum = 0) ∧
        (∀ q, r2 = some q → q = 0)) := by
  constructor
  · unfold linfit
    split
    · rename_i h
      simp [h]
    · rename_i h
      simp
      omega
  · intro h3 hconst
    set c := x.headI with hcdef
    set n := x.length with hndef
    have hx : x = List.replicate n c := by
      apply (List.eq_replicate_iff).mpr
      exact ⟨rfl, hconst⟩
    have hc2 : (c ^ 2 + 1) ≠ 0 := by positivity
    have hnq : ((n : ℚ)) ≠ 0 := by
      have hn : n ≠ 0 := by omega
      exact_mod_cast hn
    have hsum : x.sum = (n : ℚ) * c := by
      rw [hx]
      simp [List.sum_replicate, nsmul_eq_mul]
    have hsq : (x.map fun a => a ^ 2).sum = (n : ℚ) * c ^ 2 := by
      rw [hx]
      simp [List.map_replicate, List.sum_replicate, nsmul_eq_mul]
    have hd0 : (n : ℚ) * (x.map fun a => a ^ 2).sum - x.sum ^ 2 = 0 := by
      rw [hsum, hsq]
      ring
    have hyhat : (x.map fun a =>
        c * (y.sum / (n : ℚ)) / (c ^ 2 + 1) * a + y.sum / (n : ℚ) / (c ^ 2 + 1))
        = List.replicate n (y.sum / (n : ℚ)) := by
      rw [hx, List.map_replicate]
      congr 1
      field_simp
      ring
    have hres : (List.zipWith (fun b h => (b - h) ^ 2) y
          (List.replicate n (y.sum / (n : ℚ)))).sum
        = (y.map fun b => (b - y.sum / (n : ℚ)) ^ 2).sum := by
      rw [hlen, zipWith_replicate_right_fn]
    have htotnn : 0 ≤ (y.map fun b => (b - y.sum / (n : ℚ)) ^ 2).sum := by
      apply List.sum_nonneg
      intro q hq
      obtain ⟨b, hb, hbq⟩ := List.mem_map.mp hq
      rw [← hbq]
      positivity
    unfold linfit
    rw [if_neg (by omega)]
    simp only [← hndef, hd0, if_pos, if_true, eq_self_iff_true, ite_true]
    rw [← hcdef, hyhat, hres]
    refine ⟨_, rfl, ?_, ?_⟩
    · split
      · rename_i hpos
        constructor
        · intro h
          cases h
        · intro h0
          exact absurd h0 (ne_of_gt hpos)
      · rename_i hneg
        simp only [eq_self_iff_true, true_iff]
        exact le_antisymm (not_lt.mp hneg) htotnn
    · intro q hq
      split at hq
      · rename_i hpos
        have hq2 : 1 - (y.map fun b => (b - y.sum / (n : ℚ)) ^ 2).sum
            / (y.map fun b => (b - y.sum / (n : ℚ)) ^ 2).sum = q := by
          exact Option.some.inj hq
        rw [div_self (ne_of_gt hpos)] at hq2
        linarith
      · cases hq

/-- Witness for C8 (amended): the degenerate fit at `x = [1,1,1]`,
`y = [1,2,3]`. -/
theorem linfit_degenerate_witness :
    ∃ r2 : Option ℚ, linfit [1, 1, 1] [1, 2, 3]
        = some (([1, 1, 1] : List ℚ).headI
              * (([1, 2, 3] : List ℚ).sum / ([1, 1, 1] : List ℚ).length)
              / (([1, 1, 1] : List ℚ).headI ^ 2 + 1),
            ([1, 2, 3] : List ℚ).sum / ([1, 1, 1] : List ℚ).length
              / (([1, 1, 1] : List ℚ).headI ^ 2 + 1), r2) ∧
      (r2 = none ↔ (([1, 2, 3] : List ℚ).map fun b =>
          (b - ([1, 2, 3] : List ℚ).sum / ([1, 1, 1] : List ℚ).length) ^ 2).sum = 0) ∧
      (∀ q, r2 = some q → q = 0) := by
  apply (linfit_degenerate [1, 1, 1] [1, 2, 3] rfl).2
  · norm_num
  · intro a ha
    simp at ha
    simpa using ha

/-! ## C9: trend slope -/

theorem zip_shift_sum (x : List ℚ) :
    ∀ (y : List ℚ) (a b : ℚ), x.length = y.length →
      (List.zipWith (fun u w => (u - a) * (w - b)) x y).sum
        = (List.zipWith (fun u w => u * w) x y).sum - a * y.sum - b * x.sum
          + x.length * (a * b) := by
  induction x with
  | nil =>
    intro y a b hlen
    cases y with
    | nil => simp
    | cons w ys => simp at hlen
  | cons u xs ih =>
    intro y a b hlen
    cases y with
    | nil => simp at hlen
    | cons w ys =>
      have hl : xs.length = ys.length := by simpa using hlen
      simp only [List.zipWith_cons_cons, List.sum_cons, List.length_cons, ih ys a b hl]
      push_cast
      ring

theorem cov_term_nonneg (x : List ℚ) (a b : ℚ) :
    ∀ y : List ℚ, (∀ u ∈ x, a < u) → (∀ w ∈ y, b < w) →
      0 ≤ (List.zipWith (fun u w => (u - a) * (w - b)) x y).sum := by
  induction x with
  | nil =>
    intro y _ _
    simp
  | cons u xs ih =>
    intro y hx hy
    cases y with
    | nil => simp
    | cons w ys =>
      simp only [List.zipWith_cons_cons, List.sum_cons]
      have h1 : 0 ≤ (u - a) * (w - b) :=
        le_of_lt (mul_pos (sub_pos.mpr (hx u (by simp))) (sub_pos.mpr (hy w (by simp))))
      have h2 := ih ys (fun z hz => hx z (List.mem_cons_of_mem _ hz))
        (fun z hz => hy z (List.mem_cons_of_mem _ hz))
      linarith

theorem cov_expr_nonneg (x : List ℚ) :
    ∀ y : List ℚ, x.length = y.length → x.Pairwise (· < ·) → y.Pairwise (· < ·) →
      0 ≤ (x.length : ℚ) * (List.zipWith (fun u w => u * w) x y).sum - x.sum * y.sum := by
  induction x with
  | nil =>
    intro y hlen _ _
    cases y with
    | nil => simp
    | cons w ys => simp at hlen
  | cons a xs ih =>
    intro y hlen hx hy
    cases y with
    | nil => simp at hlen
    | cons b ys =>
      have hl : xs.length = ys.length := by simpa using hlen
      rw [List.pairwise_cons] at hx hy
      have hstep : ((a :: xs).length : ℚ)
            * (List.zipWith (fun u w => u * w) (a :: xs) (b :: ys)).sum
            - (a :: xs).sum * (b :: ys).sum
          = ((xs.length : ℚ) * (List.zipWith (fun u w => u * w) xs ys).sum
              - xs.sum * ys.sum)
            + (List.zipWith (fun u w => (u - a) * (w - b)) xs ys).sum := by
        rw [zip_shift_sum xs ys a b hl]
        simp only [List.zipWith_cons_cons, List.sum_cons, List.length_cons]
        push_cast
        ring
      rw [hstep]
      have h1 := ih ys hl hx.2 hy.2
      have h2 := cov_term_nonneg xs a b ys hx.1 hy.1
      linarith

theorem cov_expr_pos (x y : List ℚ) (hlen : x.length = y.length) (h2 : 2 ≤ x.length)
    (hx : x.Pairwise (· < ·)) (hy : y.Pairwise (· < ·)) :
    0 < (x.length : ℚ) * (List.zipWith (fun u w => u * w) x y).sum - x.sum * y.sum := by
  cases x with
  | nil => simp at h2
  | cons a xs =>
    cases y with
    | nil => simp at hlen
    | cons b ys =>
      have hl : xs.length = ys.length := by simpa using hlen
      rw [List.pairwise_cons] at hx hy
      have hstep : ((a :: xs).length : ℚ)
            * (List.zipWith (fun u w => u * w) (a :: xs) (b :: ys)).sum
            - (a :: xs).sum * (b :: ys).sum
          = ((xs.length : ℚ) * (List.zipWith (fun u w => u * w) xs ys).sum
              - xs.sum * ys.sum)
            + (List.zipWith (fun u w => (u - a) * (w - b)) xs ys).sum := by
        rw [zip_shift_sum xs ys a b hl]
        simp only [List.zipWith_cons_cons, List.sum_cons, List.length_cons]
        push_cast
        ring
      rw [hstep]
      have h1 := cov_expr_nonneg xs ys hl hx.2 hy.2
      cases xs with
      | nil => simp at h2
      | cons u xs2 =>
        cases ys with
        | nil => simp at hl
        | cons w ys2 =>
          simp only [List.zipWith_cons_cons, List.sum_cons]
          have hterm : 0 < (u - a) * (w - b) :=
            mul_pos (sub_pos.mpr (hx.1 u (by simp))) (sub_pos.mpr (hy.1 w (by simp)))
          have hrest := cov_term_nonneg xs2 a b ys2
            (fun z hz => hx.1 z (List.mem_cons_of_mem _ hz))
            (fun z hz => hy.1 z (List.mem_cons_of_mem _ hz))
          simp only [List.zipWith_cons_cons, List.sum_cons] at h1
          linarith

theorem zipWith_mul_self (x : List ℚ) :
    List.zipWith (fun u w => u * w) x x = x.map fun a => a ^ 2 := by
  induction x with
  | nil => rfl
  | cons a l ih => simp [ih, pow_two]

theorem allclose0_of_const {x : List ℚ} (h : ∀ a ∈ x, a = x.headI) : allclose0 x = true := by
  unfold allclose0
  rw [List.all_eq_true]
  intro a ha
  rw [h a ha]
  simp only [decide_eq_true_eq, sub_self, abs_zero]
  positivity

/-- Counterexample to C9 as stated: two runs whose elapsed-day values
are 100 and 100.0001 (8.64 seconds apart, 100 days after the earliest
run) are distinct and strictly increasing, and the RMSE values 1, 2 are
strictly increasing, yet `ols_slope` returns NaN, because
`np.allclose(x, x[0])` holds under its relative tolerance
`1e-8 + 1e-5 * |x[0]|`. -/
theorem trend_tolerance_counterexample :
    slope_rmse 0 [1, 2] [8640000, 8640000 + 432 / 50] = none ∧
    (8640000 : ℚ) < 8640000 + 432 / 50 ∧ ((1 : ℚ) < 2) := by
  refine ⟨?_, by norm_num, by norm_num⟩
  unfold slope_rmse t_days ols_slope allclose0
  norm_num [abs_of_nonneg]

/-- C9 (amended): the trend is the OLS slope of RMSE against elapsed
days since the earliest run; it is NaN whenever the group has fewer than
2 rows or all its time values are equal (more generally whenever all
elapsed-day values are within numpy allclose tolerance of the first),
and for strictly increasing RMSE over strictly increasing run times the
returned slope is strictly positive, provided the elapsed-day values are
not all within that tolerance of the first. -/
theorem trend_slope_props (t0 : ℚ) (rmses times : List ℚ)
    (hlen : rmses.length = times.length) :
    ((∀ t ∈ times, t = times.headI) → slope_rmse t0 rmses times = none) ∧
    (rmses.length < 2 → slope_rmse t0 rmses times = none) ∧
    (2 ≤ rmses.length → times.Pairwise (· < ·) → rmses.Pairwise (· < ·) →
      allclose0 (t_days t0 times) = false →
      ∃ s, slope_rmse t0 rmses times = some s ∧ 0 < s) := by
  refine ⟨?_, ?_, ?_⟩
  · intro hconst
    have hac : allclose0 (t_days t0 times) = true := by
      apply allclose0_of_const
      intro a ha
      obtain ⟨t, ht, hta⟩ := List.mem_map.mp ha
      cases times with
      | nil => cases ht
      | cons t1 ts =>
        have ht1 : t = t1 := by
          have := hconst t ht
          simpa using this
        rw [← hta, ht1]
        simp [t_days]
    unfold slope_rmse ols_slope
    rw [if_pos (Or.inr hac)]
  · intro hlt
    unfold slope_rmse ols_slope
    rw [if_pos (Or.inl hlt)]
  · intro h2 htimes hrmses hac
    have hguard : ¬ (rmses.length < 2 ∨ allclose0 (t_days t0 times) = true) := by
      rintro (h | h)
      · omega
      · rw [hac] at h
        cases h
    have hxlen : (t_days t0 times).length = times.length := by
      simp [t_days]
    have hxlen2 : (t_days t0 times).length = rmses.length := by
      rw [hxlen, hlen]
    have hxp : (t_days t0 times).Pairwise (· < ·) := by
      unfold t_days
      refine List.Pairwise.map _ (fun a b hab => ?_) htimes
      gcongr
    unfold slope_rmse ols_slope
    rw [if_neg hguard]
    refine ⟨_, rfl, ?_⟩
    have hnum := cov_expr_pos (t_days t0 times) rmses hxlen2 (by omega) hxp hrmses
    have hden := cov_expr_pos (t_days t0 times) (t_days t0 times) rfl (by omega) hxp hxp
    rw [zipWith_mul_self, ← pow_two (t_days t0 times).sum] at hden
    exact div_pos hnum hden

/-- Witness for C9 (amended): three runs one day apart with strictly
increasing RMSE yield a strictly positive slope. -/
theorem trend_slope_props_witness :
    ∃ s, slope_rmse 0 [1, 2, 3] [0, 86400, 172800] = some s ∧ 0 < s := by
  have hlen : ([1, 2, 3] : List ℚ).length = ([0, 86400, 172800] : List ℚ).length := rfl
  apply (trend_slope_props 0 [1, 2, 3] [0, 86400, 172800] hlen).2.2
  · norm_num
  · norm_num [List.pairwise_cons]
  · norm_num [List.pairwise_cons]
  · unfold t_days allclose0
    norm_num [abs_of_nonneg]

end ApiCompare
